import Mathlib

/-!
# Verification of the `memory-redis` plugin core

A shallow embedding of the Redis-backed long-term-memory plugin:
the `RedisMemoryDB` store operations (`search`, `textSearch`, `delete`),
the distance-to-similarity conversion, the hybrid-search merge used by
`memory_recall` and the CLI, the capture filter `shouldCapture`, and the
tool/hook orchestration (`memory_store`, `memory_forget`,
`before_agent_start`).

Modelling conventions:
* JS numbers are modelled as `ℚ` (the claims only use ordering, `+`, `-`,
  `*`, `/` on values where rational arithmetic agrees with the program).
* JS string length is modelled as the codepoint count `String.length`.
* The Redis engine is external to the repository: an engine reply is a
  universally quantified list of raw documents (`RedisDoc`); engine
  contracts (KNN returns at most `limit` documents, ordered by ascending
  distance) appear as hypotheses on theorems.
* A raw reply field that JS inspects with `typeof` is modelled by
  `Option String` (string-typed or not) resp. `NumField`
  (number-typed, numeric string, or anything else).
-/

/-- A persisted memory record (the `MemoryEntry` interface).
`category` is a plain string: the source casts the raw value with
`as MemoryCategory` and never validates membership. -/
structure MemoryEntry where
  id : String
  text : String
  vector : List ℚ
  importance : ℚ
  category : String
  createdAt : ℚ
  role : Option String
  embeddingModel : Option String
deriving DecidableEq, Repr

/-- A search hit: an entry paired with a similarity score (the
`MemorySearchResult` interface). -/
structure MemorySearchResult where
  entry : MemoryEntry
  score : ℚ
deriving DecidableEq, Repr

/-- A numeric-ish field of a raw Redis reply document, as the source
discriminates it: `typeof v === "number"`, `typeof v === "string"`
(carrying the value `parseFloat`/`parseInt` yields), or anything else. -/
inductive NumField where
  | num (q : ℚ)
  | numStr (q : ℚ)
  | other
deriving DecidableEq, Repr

/-- The value the source's `typeof`-cascade extracts from a numeric-ish
field: the number itself, the parsed value of a numeric string, `0`
otherwise. -/
def NumField.parse : NumField → ℚ
  | .num q => q
  | .numStr q => q
  | .other => 0

/-- One raw document of a Redis `ft.search` reply, holding the returned
fields before the source's `typeof` checks. -/
structure RedisDoc where
  id : Option String
  text : Option String
  category : Option String
  importance : NumField
  createdAt : NumField
  role : Option String
  embeddingModel : Option String
  score : NumField
deriving DecidableEq, Repr

namespace RedisMemoryDB

/-- `score = 1 - distance / 2`: the cosine-distance to similarity-score
conversion in `RedisMemoryDB.search`. -/
def distanceToScore (distance : ℚ) : ℚ :=
  1 - distance / 2

/-- The `MemoryEntry` that `search`/`textSearch` build from one raw
document: `typeof`-guarded field extraction with defaults `""`,
`"other"`, `0`; the `vector` field is never returned. -/
def docEntry (d : RedisDoc) : MemoryEntry where
  id := d.id.getD ""
  text := d.text.getD ""
  vector := []
  importance := d.importance.parse
  category := d.category.getD "other"
  createdAt := d.createdAt.parse
  role := d.role
  embeddingModel := d.embeddingModel

/-- The similarity score `search` assigns to one raw document:
`typeof`-guarded extraction of the distance, then `1 - distance / 2`. -/
def docScore (d : RedisDoc) : ℚ :=
  distanceToScore d.score.parse

/-- `RedisMemoryDB.search`: map the engine's reply documents to results,
keeping a document only when `score >= minScore`.  `docs` is the KNN
engine reply (at most `limit` documents, ascending distance — engine
contracts stated as hypotheses where needed); the `limit` parameter is
only ever passed through to the engine as KNN `K`. -/
def search (docs : List RedisDoc) (_limit : ℕ) (minScore : ℚ) :
    List MemorySearchResult :=
  docs.filterMap fun d =>
    if minScore ≤ docScore d then some ⟨docEntry d, docScore d⟩ else none

/-- `RedisMemoryDB.textSearch`: map the engine's full-text reply
documents to results with the fixed score `1.0` (the engine gives no
similarity score in this mode). -/
def textSearch (docs : List RedisDoc) (_limit : ℕ) :
    List MemorySearchResult :=
  docs.map fun d => ⟨docEntry d, 1⟩

/-- One character of the class `[0-9a-f]` under the regex's `i` flag. -/
def isHexDigitChar (c : Char) : Bool :=
  c.isDigit || ('a' ≤ c && c ≤ 'f') || ('A' ≤ c && c ≤ 'F')

/-- Position-indexed scan for the canonical UUID shape: the character at
positions 8, 13, 18, 23 is `-`, every other position holds a hex digit,
and the total length is 36. -/
def uuidCharsFrom : List Char → ℕ → Bool
  | [], n => n == 36
  | c :: rest, n =>
      (if n == 8 || n == 13 || n == 18 || n == 23 then c == '-'
       else isHexDigitChar c) && uuidCharsFrom rest (n + 1)

/-- The test of `/^[0-9a-f]{8}-[0-9a-f]{4}-[0-9a-f]{4}-[0-9a-f]{4}-[0-9a-f]{12}$/i`
in `RedisMemoryDB.delete`: 8-4-4-4-12 hex groups separated by `-`,
anchored at both ends. -/
def uuidRegexTest (id : String) : Bool :=
  uuidCharsFrom id.toList 0

/-- `RedisMemoryDB.delete`.  The Redis keyspace is modelled as the list
of stored keys; `client.del key` removes the key and reports how many
keys were removed, and the method returns `deleted > 0`.  A malformed id
throws before any engine call. -/
def delete (keyPref : String) (store : List String) (id : String) :
    Except String (List String × Bool) :=
  if !uuidRegexTest id then
    Except.error ("Invalid memory ID format: " ++ id)
  else
    let key := keyPref ++ ":" ++ id
    Except.ok (store.filter (fun k => !(k == key)), store.contains key)

end RedisMemoryDB

/-! ## Hybrid search merge

The merge loop shared by `memory_recall` (hybrid branch) and the
`redis-memory search` CLI (hybrid branch): a JS `Map` keyed by entry id
(modelled as an insertion-ordered association list — `Map` iterates in
insertion order), filled with the vector results first, then with the
text results whose id is unseen at a score penalised by `0.8`; the
values are then stably sorted by descending score (`toSorted` with
comparator `b.score - a.score`) and sliced to `limit`. -/

/-- A text-only hit's score penalty: `score * 0.8`. -/
def penalize (r : MemorySearchResult) : MemorySearchResult :=
  { r with score := r.score * (8 / 10) }

/-- Insertion-ordered association list standing for the JS `Map`. -/
abbrev SeenMap := List (String × MemorySearchResult)

/-- `Map.has`. -/
def mapHas (m : SeenMap) (k : String) : Bool :=
  m.any fun p => p.1 == k

/-- `Map.set`: replace in place when the key exists, append otherwise. -/
def mapSet (m : SeenMap) (k : String) (v : MemorySearchResult) : SeenMap :=
  if mapHas m k then m.map fun p => if p.1 == k then (k, v) else p
  else m ++ [(k, v)]

/-- The `seen` map after both merge loops: all vector results, then each
text result whose id is not already present, penalised. -/
def hybridSeen (vres tres : List MemorySearchResult) : SeenMap :=
  let m1 := vres.foldl (fun m r => mapSet m r.entry.id r) []
  tres.foldl
    (fun m r =>
      if mapHas m r.entry.id then m else mapSet m r.entry.id (penalize r))
    m1

/-- The `toSorted` comparator `(a, b) => b.score - a.score`: `a` may stay
before `b` exactly when `b.score ≤ a.score` (stable on ties). -/
def scoreLe (a b : MemorySearchResult) : Bool :=
  decide (b.score ≤ a.score)

/-- The merged, deduplicated, descending-sorted hybrid result list,
before the final `slice(0, limit)`. -/
def hybridMergeCore (vres tres : List MemorySearchResult) :
    List MemorySearchResult :=
  ((hybridSeen vres tres).map Prod.snd).mergeSort scoreLe

/-- The final hybrid result list: `[...seen.values()]` sorted by
descending score and sliced to `limit`. -/
def hybridMerge (vres tres : List MemorySearchResult) (limit : ℕ) :
    List MemorySearchResult :=
  (hybridMergeCore vres tres).take limit

/-! ## Rule-based capture filter

Executable translations of the `MEMORY_TRIGGERS` regexes and the
`shouldCapture` cascade.  JS `\w` and `\d` are the ASCII classes; the
`i` flag is modelled by lowercasing the text (`Char.toLower`, exact on
ASCII where the claims live); `\s` is modelled by `Char.isWhitespace`.
In each pattern every `+`-quantified class is followed by a literal or a
class disjoint from it, so greedy maximal-munch matching is exact (no
backtracking can succeed where maximal munch fails). -/

/-- Case-sensitive substring test (JS `String.includes` / regex literal
search), scanning every suffix. -/
def containsList (p : List Char) : List Char → Bool
  | [] => p.isEmpty
  | c :: rest => p.isPrefixOf (c :: rest) || containsList p rest

/-- `text.includes(pat)`. -/
def containsStr (t pat : String) : Bool :=
  containsList pat.toList t.toList

/-- `text.startsWith(pat)`. -/
def strStartsWith (t pat : String) : Bool :=
  pat.toList.isPrefixOf t.toList

/-- Case-insensitive substring test: `/pat/i.test(text)` for a literal
(already-lowercase) `pat`. -/
def cic (t pat : String) : Bool :=
  containsList pat.toList (t.toList.map Char.toLower)

/-- JS `\w`: `[A-Za-z0-9_]`. -/
def isWordChar (c : Char) : Bool :=
  c.isAlphanum || c == '_'

/-- The regex class `[\w.-]`. -/
def isWordDotDash (c : Char) : Bool :=
  isWordChar c || c == '.' || c == '-'

/-- Match a literal at the head, returning the rest. -/
def matchLit : List Char → List Char → Option (List Char)
  | [], l => some l
  | _ :: _, [] => none
  | p :: ps, c :: cs => if c == p then matchLit ps cs else none

/-- Match `class+` (greedily, one or more) at the head, returning the
rest. -/
def matchPlusWhile (p : Char → Bool) (l : List Char) : Option (List Char) :=
  match l.takeWhile p with
  | [] => none
  | run => some (l.drop run.length)

/-- Try a head-anchored pattern at every position of the text. -/
def scanAny (p : List Char → Bool) : List Char → Bool
  | [] => p []
  | c :: rest => p (c :: rest) || scanAny p rest

/-- `/\+\d{10,}/`: a `+` followed by at least ten ASCII digits. -/
def hasPlusDigits : List Char → Bool
  | [] => false
  | '+' :: rest =>
      decide (10 ≤ (rest.takeWhile Char.isDigit).length) || hasPlusDigits rest
  | _ :: rest => hasPlusDigits rest

/-- An adjacent `.` followed by a `\w` character somewhere in the list. -/
def hasDotWord : List Char → Bool
  | [] => false
  | '.' :: rest =>
      (match rest with
       | c :: _ => isWordChar c
       | [] => false) || hasDotWord rest
  | _ :: rest => hasDotWord rest

/-- The part of the email regex after the matched `[\w.-]` character:
an `@`, then at least one `[\w.-]` character, then (inside the maximal
`[\w.-]` run) a `.` immediately followed by a `\w` character. -/
def afterAt : List Char → Bool
  | '@' :: after =>
      (match after.takeWhile isWordDotDash with
       | [] => false
       | _ :: rrest => hasDotWord rrest)
  | _ => false

/-- `/[\w.-]+@[\w.-]+\.\w+/`: searched at every position. -/
def emailScan : List Char → Bool
  | [] => false
  | c :: rest => (isWordDotDash c && afterAt rest) || emailScan rest

/-- Head-anchored `můj\s+\w+\s+je`. -/
def patMujJe (l : List Char) : Bool :=
  ((((matchLit "můj".toList l).bind (matchPlusWhile Char.isWhitespace)).bind
        (matchPlusWhile isWordChar)).bind
      (matchPlusWhile Char.isWhitespace) |>.bind
    (matchLit "je".toList)).isSome

/-- Head-anchored `je\s+můj`. -/
def patJeMuj (l : List Char) : Bool :=
  ((matchLit "je".toList l).bind (matchPlusWhile Char.isWhitespace) |>.bind
    (matchLit "můj".toList)).isSome

/-- Head-anchored `my\s+\w+\s+is`. -/
def patMyIs (l : List Char) : Bool :=
  ((((matchLit "my".toList l).bind (matchPlusWhile Char.isWhitespace)).bind
        (matchPlusWhile isWordChar)).bind
      (matchPlusWhile Char.isWhitespace) |>.bind
    (matchLit "is".toList)).isSome

/-- Head-anchored `is\s+my`. -/
def patIsMy (l : List Char) : Bool :=
  ((matchLit "is".toList l).bind (matchPlusWhile Char.isWhitespace) |>.bind
    (matchLit "my".toList)).isSome

/-- The lowercased character list `/…/i` patterns scan. -/
def lowerChars (t : String) : List Char :=
  t.toList.map Char.toLower

/-- `/zapamatuj si|pamatuj|remember/i` -/
def memTrigger1 (t : String) : Bool :=
  cic t "zapamatuj si" || cic t "pamatuj" || cic t "remember"

/-- `/preferuji|radši|nechci|prefer/i` -/
def memTrigger2 (t : String) : Bool :=
  cic t "preferuji" || cic t "radši" || cic t "nechci" || cic t "prefer"

/-- `/rozhodli jsme|budeme používat/i` -/
def memTrigger3 (t : String) : Bool :=
  cic t "rozhodli jsme" || cic t "budeme používat"

/-- `/\+\d{10,}/` -/
def memTrigger4 (t : String) : Bool :=
  hasPlusDigits t.toList

/-- `/[\w.-]+@[\w.-]+\.\w+/` -/
def memTrigger5 (t : String) : Bool :=
  emailScan t.toList

/-- `/můj\s+\w+\s+je|je\s+můj/i` -/
def memTrigger6 (t : String) : Bool :=
  scanAny patMujJe (lowerChars t) || scanAny patJeMuj (lowerChars t)

/-- `/my\s+\w+\s+is|is\s+my/i` -/
def memTrigger7 (t : String) : Bool :=
  scanAny patMyIs (lowerChars t) || scanAny patIsMy (lowerChars t)

/-- `/i (like|prefer|hate|love|want|need)/i`: literal alternation. -/
def memTrigger8 (t : String) : Bool :=
  cic t "i like" || cic t "i prefer" || cic t "i hate" || cic t "i love" ||
    cic t "i want" || cic t "i need"

/-- `/always|never|important/i` -/
def memTrigger9 (t : String) : Bool :=
  cic t "always" || cic t "never" || cic t "important"

/-- The `MEMORY_TRIGGERS` array. -/
def MEMORY_TRIGGERS : List (String → Bool) :=
  [memTrigger1, memTrigger2, memTrigger3, memTrigger4, memTrigger5,
   memTrigger6, memTrigger7, memTrigger8, memTrigger9]

/-- The number of code points in the emoji range `[\u{1F300}-\u{1F9FF}]`
(the `g`-flag match count). -/
def emojiCount (t : String) : ℕ :=
  (t.toList.filter fun c =>
    decide (0x1F300 ≤ c.toNat) && decide (c.toNat ≤ 0x1F9FF)).length

/-- The `shouldCapture` cascade, translated clause by clause. -/
def shouldCapture (text : String) : Bool :=
  if text.length < 10 || 500 < text.length then false
  else if containsStr text "<relevant-memories>" then false
  else if strStartsWith text "<" && containsStr text "</" then false
  else if containsStr text "**" && containsStr text "\n-" then false
  else if 3 < emojiCount text then false
  else MEMORY_TRIGGERS.any fun r => r text

/-- C7 sanity. -/
example : shouldCapture "hi" = false := rfl

/-- C7 sanity. -/
example : shouldCapture "I prefer dark mode themes for all my apps" = true := rfl

/-- Trigger sanity: email pattern. -/
example : memTrigger5 "My email is a@b.com" = true := rfl

/-- Trigger sanity: phone pattern needs ten digits. -/
example : memTrigger4 "call +123456789" = false := rfl

/-- Trigger sanity: phone pattern. -/
example : memTrigger4 "call +1234567890" = true := rfl

/-- Trigger sanity: `my X is`. -/
example : memTrigger7 "My name is Bob" = true := rfl

/-! ## Orchestrator: lifecycle hook and tool paths -/

/-- The standing tool-usage guidance text prepended by the
`before_agent_start` hook (`MEMORY_SYSTEM_PROMPT`). -/
def MEMORY_SYSTEM_PROMPT : String :=
  "You have access to a long-term memory system stored in Redis. Use these tools to remember important information across conversations:\n\n- **memory_store**: Store important facts, preferences, decisions, or entities. Use this when the user shares personal information, preferences, or asks you to remember something.\n- **memory_recall**: Search your memories when you need context about the user or past conversations.\n- **memory_forget**: Delete memories when requested (GDPR compliance).\n\nIMPORTANT: When the user tells you something about themselves (name, preferences, important facts) or explicitly asks you to remember something, use memory_store to save it - don\x27t just write it to a file."

/-- One line of the injected memory block. -/
def memoryContextLine (r : MemorySearchResult) : String :=
  "- [" ++ r.entry.category ++ "]" ++
    (match r.entry.role with
     | some ro => " (" ++ ro ++ ")"
     | none => "") ++ " " ++ r.entry.text

/-- The joined memory block body. -/
def memoryContext (results : List MemorySearchResult) : String :=
  String.intercalate "\n" (results.map memoryContextLine)

/-- The `before_agent_start` hook, as the `prependContext` string it
returns.  `!event.prompt` (absent or empty prompt) and a prompt shorter
than 5 characters short-circuit before the `try`; `recallRes` stands for
the embed-then-search call inside the `try`, whose failure the `catch`
turns into the guidance text alone. -/
def beforeAgentStart (autoRecall : Bool) (prompt : Option String)
    (recallRes : Except String (List MemorySearchResult)) : String :=
  match prompt with
  | none => MEMORY_SYSTEM_PROMPT
  | some p =>
      if p.length < 5 then MEMORY_SYSTEM_PROMPT
      else if !autoRecall then MEMORY_SYSTEM_PROMPT
      else
        match recallRes with
        | .error _ => MEMORY_SYSTEM_PROMPT
        | .ok results =>
            if results.length == 0 then MEMORY_SYSTEM_PROMPT
            else
              MEMORY_SYSTEM_PROMPT ++
                ("\n\n<relevant-memories>\nThe following memories may be relevant to this conversation:\n"
                  ++ memoryContext results ++ "\n</relevant-memories>")

/-- `memory_store.execute` after the embedding call: the duplicate check
result `dupResults` is `db.search(vector, 1, 0.95)`; a non-empty result
reports `"duplicate"` without writing, otherwise `db.store` appends the
completed entry (fresh UUID `newId`, `createdAt := now`, role `"user"`)
and the call reports `"created"`.  The Redis document store is modelled
as the list of persisted entries. -/
def memoryStoreExecute (db : List MemoryEntry)
    (dupResults : List MemorySearchResult) (text : String) (vector : List ℚ)
    (importance : ℚ) (category : String) (provider : String) (newId : String)
    (now : ℚ) : List MemoryEntry × String :=
  if 0 < dupResults.length then (db, "duplicate")
  else
    (db ++ [{ id := newId, text := text, vector := vector,
              importance := importance, category := category,
              createdAt := now, role := some "user",
              embeddingModel := some provider }],
     "created")

/-- The `memoryId` branch of `memory_forget.execute`: calls
`db.delete(memoryId)` discarding its boolean, then reports action
`"deleted"`; a `delete` rejection (malformed id) propagates. -/
def memoryForgetById (keyPref : String) (store : List String)
    (memoryId : String) : Except String (List String × String) :=
  match RedisMemoryDB.delete keyPref store memoryId with
  | .error e => .error e
  | .ok (store1, _deleted) => .ok (store1, "deleted")

/-- C2 sanity: distance 1 converts to score 1/2. -/
example : RedisMemoryDB.distanceToScore 1 = 1 / 2 := by norm_num [RedisMemoryDB.distanceToScore]

/-- C5 sanity: a malformed id is rejected. -/
example :
    RedisMemoryDB.delete "memory" [] "not-a-uuid" =
      Except.error "Invalid memory ID format: not-a-uuid" := rfl

/-- C5 sanity: a well-formed unknown id deletes nothing and reports `false`. -/
example :
    RedisMemoryDB.delete "m" ["m:x"] "0123abcd-0123-abcd-0123-0123456789ab" =
      Except.ok (["m:x"], false) := rfl


/-! ## Concrete data used by witnesses and counterexamples -/

/-- The engine reply document used by the C6 witness: the first call's
entry returned at cosine distance 0. -/
def dupDocW : RedisDoc :=
  ⟨some "id-1", some "I like tea", some "other", NumField.num (7 / 10),
    NumField.num 0, some "user", some "local/m", NumField.num 0⟩
/-- Engine reply documents used by the C1 witness: distances 0 and 1
(ascending), the second filtered out by `minScore = 0.6`. -/
def knnDocW0 : RedisDoc :=
  ⟨some "a", some "alpha", some "fact", NumField.num 1, NumField.num 0,
    none, none, NumField.num 0⟩
/-- Second C1 witness document, at parsed string distance 1. -/
def knnDocW1 : RedisDoc :=
  ⟨some "b", some "beta", some "fact", NumField.num 1, NumField.num 0,
    none, none, NumField.numStr 1⟩
/-- The text-only results: those whose id no vector result carries. -/
def textOnly (vres tres : List MemorySearchResult) :
    List MemorySearchResult :=
  tres.filter fun s => !(vres.any fun r => r.entry.id == s.entry.id)
/-- Entry shared by both C3 witness sub-searches. -/
def entWa : MemoryEntry :=
  ⟨"wa", "alpha fact", [], 1 / 2, "fact", 0, none, none⟩
/-- Entry found only by the C3 witness text sub-search. -/
def entWb : MemoryEntry :=
  ⟨"wb", "beta fact", [], 1 / 2, "fact", 0, none, none⟩
/-- C3 witness vector sub-results. -/
def vresW : List MemorySearchResult := [⟨entWa, 9 / 10⟩]
/-- C3 witness text sub-results. -/
def tresW : List MemorySearchResult := [⟨entWa, 1⟩, ⟨entWb, 1⟩]
/-- The vector-found entry of the C4 scenario. -/
def entVec : MemoryEntry :=
  ⟨"vec1", "semantic hit", [], 7 / 10, "fact", 0, none, none⟩
/-- The text-only entry of the C4 scenario. -/
def entTxt : MemoryEntry :=
  ⟨"txt1", "keyword hit", [], 7 / 10, "fact", 0, none, none⟩
/-- A vector sub-result at score `1/2` — admitted by the hybrid vector
`minScore` of `0.1`. -/
def vHitW : MemorySearchResult := ⟨entVec, 1 / 2⟩
/-- A text sub-result with the fixed text score `1`. -/
def tHitW : MemorySearchResult := ⟨entTxt, 1⟩
/-- A vector sub-result scoring above the `0.8` penalty. -/
def vHitHi : MemorySearchResult := ⟨entVec, 9 / 10⟩

/-! ## Claim theorems -/

/-- **C2** — The distance-to-similarity conversion used by `search` maps
cosine distance `d` to `1 - d/2`: distance 0 yields score 1, distance 2
yields score 0, and the mapping is antitone in the distance (smaller
distance never yields a smaller score). -/
theorem distanceToScore_spec :
    RedisMemoryDB.distanceToScore 0 = 1 ∧
    RedisMemoryDB.distanceToScore 2 = 0 ∧
    ∀ d1 d2 : ℚ, d1 ≤ d2 →
      RedisMemoryDB.distanceToScore d2 ≤ RedisMemoryDB.distanceToScore d1 := by
  refine ⟨by norm_num [RedisMemoryDB.distanceToScore],
    by norm_num [RedisMemoryDB.distanceToScore], ?_⟩
  intro d1 d2 h
  unfold RedisMemoryDB.distanceToScore
  linarith

/-- Witness for **C2** at distances `1/2 ≤ 1`. -/
theorem distanceToScore_spec_witness :
    RedisMemoryDB.distanceToScore 1 ≤ RedisMemoryDB.distanceToScore (1 / 2) :=
  distanceToScore_spec.2.2 (1 / 2) 1 (by norm_num)

/-- **C5** — `delete(id)`: a malformed id is rejected with an
invalid-input error (nothing removed, no state returned); a well-formed
UUID with no record under `{keyPref}:{id}` leaves the keyspace unchanged
and returns `false`; a well-formed UUID whose key is stored removes that
key and returns `true`. -/
theorem delete_spec (keyPref : String) (store : List String) (id : String) :
    (RedisMemoryDB.uuidRegexTest id = false →
      RedisMemoryDB.delete keyPref store id =
        Except.error ("Invalid memory ID format: " ++ id)) ∧
    (RedisMemoryDB.uuidRegexTest id = true →
      (keyPref ++ ":" ++ id) ∉ store →
      RedisMemoryDB.delete keyPref store id = Except.ok (store, false)) ∧
    (RedisMemoryDB.uuidRegexTest id = true →
      (keyPref ++ ":" ++ id) ∈ store →
      RedisMemoryDB.delete keyPref store id =
        Except.ok
          (store.filter (fun k => !(k == keyPref ++ ":" ++ id)), true)) := by
  refine ⟨fun hbad => ?_, fun hok habs => ?_, fun hok hmem => ?_⟩
  · simp [RedisMemoryDB.delete, hbad]
  · have hfilter : store.filter (fun k => !(k == keyPref ++ ":" ++ id)) = store := by
      apply List.filter_eq_self.mpr
      intro a ha
      simp only [Bool.not_eq_eq_eq_not, Bool.not_true, beq_eq_false_iff_ne, ne_eq]
      rintro rfl
      exact habs ha
    have hcont : store.contains (keyPref ++ ":" ++ id) = false := by
      simpa using habs
    simp only [RedisMemoryDB.delete, hok, Bool.not_true, Bool.false_eq_true,
      if_false, hfilter, hcont]
  · have hcont : store.contains (keyPref ++ ":" ++ id) = true := by
      simpa using hmem
    simp only [RedisMemoryDB.delete, hok, Bool.not_true, Bool.false_eq_true,
      if_false, hcont]

/-- Witness for **C5**: a malformed id is rejected, an unknown
well-formed UUID reports `false`, a stored one is removed with `true`. -/
theorem delete_spec_witness :
    RedisMemoryDB.delete "memory" ["memory:x"] "not-a-uuid" =
      Except.error ("Invalid memory ID format: " ++ "not-a-uuid") ∧
    RedisMemoryDB.delete "memory" ["memory:x"]
        "0123abcd-0123-abcd-0123-0123456789ab" =
      Except.ok (["memory:x"], false) ∧
    RedisMemoryDB.delete "memory"
        ["memory:0123abcd-0123-abcd-0123-0123456789ab"]
        "0123abcd-0123-abcd-0123-0123456789ab" =
      Except.ok
        (["memory:0123abcd-0123-abcd-0123-0123456789ab"].filter
          (fun k =>
            !(k == "memory" ++ ":" ++ "0123abcd-0123-abcd-0123-0123456789ab")),
         true) :=
  ⟨(delete_spec "memory" ["memory:x"] "not-a-uuid").1 (by decide),
   (delete_spec "memory" ["memory:x"]
      "0123abcd-0123-abcd-0123-0123456789ab").2.1 (by decide) (by decide),
   (delete_spec "memory" ["memory:0123abcd-0123-abcd-0123-0123456789ab"]
      "0123abcd-0123-abcd-0123-0123456789ab").2.2 (by decide) (by decide)⟩

/-- **C9** — For every well-formed UUID `memoryId`, `memory_forget`
reports action `"deleted"` whether or not a record with that id exists:
the boolean from `delete` is discarded, so the reported action is the
same for every keyspace. -/
theorem memoryForgetById_spec (keyPref : String) (store : List String)
    (memoryId : String) (h : RedisMemoryDB.uuidRegexTest memoryId = true) :
    memoryForgetById keyPref store memoryId =
      Except.ok
        (store.filter (fun k => !(k == keyPref ++ ":" ++ memoryId)),
         "deleted") ∧
    ∀ store2 : List String,
      (memoryForgetById keyPref store memoryId).map (fun p => p.2) =
        (memoryForgetById keyPref store2 memoryId).map (fun p => p.2) := by
  constructor
  · simp [memoryForgetById, RedisMemoryDB.delete, h]
  · intro store2
    simp [memoryForgetById, RedisMemoryDB.delete, h, Except.map]

/-- Witness for **C9**: deleting an id that is absent still reports
`"deleted"`, indistinguishably from deleting a present one. -/
theorem memoryForgetById_spec_witness :
    memoryForgetById "memory" [] "0123abcd-0123-abcd-0123-0123456789ab" =
      Except.ok
        (List.filter
          (fun k =>
            !(k == "memory" ++ ":" ++ "0123abcd-0123-abcd-0123-0123456789ab"))
          [],
         "deleted") ∧
    ∀ store2 : List String,
      (memoryForgetById "memory" []
          "0123abcd-0123-abcd-0123-0123456789ab").map (fun p => p.2) =
        (memoryForgetById "memory" store2
            "0123abcd-0123-abcd-0123-0123456789ab").map (fun p => p.2) :=
  memoryForgetById_spec "memory" [] "0123abcd-0123-abcd-0123-0123456789ab"
    (by decide)

/-- **C10** — A reply document whose score field is neither a number nor
a numeric string is treated as distance 0, hence similarity score 1: it
passes every `minScore ≤ 1` threshold (it is produced by `search` for
every such threshold whenever the engine returns it) and its score is
maximal among documents with nonnegative distance; numeric and
numeric-string score fields are parsed to their value and converted
normally. -/
theorem search_nonnumeric_score_spec (d : RedisDoc)
    (hscore : d.score = NumField.other) :
    RedisMemoryDB.docScore d = 1 ∧
    (∀ (docs : List RedisDoc) (limit : ℕ) (minScore : ℚ), minScore ≤ 1 →
      d ∈ docs →
      (⟨RedisMemoryDB.docEntry d, RedisMemoryDB.docScore d⟩ :
          MemorySearchResult) ∈ RedisMemoryDB.search docs limit minScore) ∧
    (∀ d2 : RedisDoc, 0 ≤ d2.score.parse →
      RedisMemoryDB.docScore d2 ≤ RedisMemoryDB.docScore d) ∧
    (∀ (q : ℚ) (d2 : RedisDoc),
      d2.score = NumField.num q ∨ d2.score = NumField.numStr q →
      RedisMemoryDB.docScore d2 = 1 - q / 2) := by
  have hds : RedisMemoryDB.docScore d = 1 := by
    simp [RedisMemoryDB.docScore, RedisMemoryDB.distanceToScore, hscore,
      NumField.parse]
  refine ⟨hds, fun docs limit minScore hmin hd => ?_, fun d2 h2 => ?_,
    fun q d2 h2 => ?_⟩
  · unfold RedisMemoryDB.search
    refine List.mem_filterMap.mpr ⟨d, hd, ?_⟩
    rw [if_pos (by rw [hds]; exact hmin)]
  · rw [hds]
    unfold RedisMemoryDB.docScore RedisMemoryDB.distanceToScore
    linarith
  · rcases h2 with h2 | h2 <;>
      simp [RedisMemoryDB.docScore, RedisMemoryDB.distanceToScore, h2,
        NumField.parse]

/-- Witness for **C10**: a garbage-scored document passes threshold
`0.95` as a perfect match, while a distance-`1` document scores `1/2`. -/
theorem search_nonnumeric_score_spec_witness :
    RedisMemoryDB.docScore
        ⟨some "g", some "garbage", none, NumField.other, NumField.other,
          none, none, NumField.other⟩ = 1 ∧
    (⟨RedisMemoryDB.docEntry
        ⟨some "g", some "garbage", none, NumField.other, NumField.other,
          none, none, NumField.other⟩,
      RedisMemoryDB.docScore
        ⟨some "g", some "garbage", none, NumField.other, NumField.other,
          none, none, NumField.other⟩⟩ :
        MemorySearchResult) ∈
      RedisMemoryDB.search
        [⟨some "g", some "garbage", none, NumField.other, NumField.other,
          none, none, NumField.other⟩] 1 (19 / 20) ∧
    RedisMemoryDB.docScore
        ⟨some "n", some "normal", none, NumField.other, NumField.other,
          none, none, NumField.num 1⟩ ≤
      RedisMemoryDB.docScore
        ⟨some "g", some "garbage", none, NumField.other, NumField.other,
          none, none, NumField.other⟩ ∧
    RedisMemoryDB.docScore
        ⟨some "n", some "normal", none, NumField.other, NumField.other,
          none, none, NumField.num 1⟩ = 1 - 1 / 2 := by
  have h := search_nonnumeric_score_spec
    ⟨some "g", some "garbage", none, NumField.other, NumField.other,
      none, none, NumField.other⟩ rfl
  exact ⟨h.1,
    h.2.1 _ 1 (19 / 20) (by norm_num) (List.mem_singleton.mpr rfl),
    h.2.2.1 _ (by norm_num [NumField.parse]),
    h.2.2.2 1 _ (Or.inl rfl)⟩

/-- **C6** — Storing the same text twice through `memory_store`: the
first call (empty duplicate check) writes exactly one entry and reports
`"created"`; assuming a deterministic embedding, the second call's
duplicate check `search(vector, 1, 0.95)` receives that entry back from
the engine at cosine distance 0, so it finds it (score 1 ≥ 0.95), and
the second call reports `"duplicate"` leaving the store unchanged. -/
theorem memoryStore_twice_spec (db0 : List MemoryEntry) (text : String)
    (vector : List ℚ) (importance : ℚ)
    (category provider id1 id2 : String) (t1 t2 : ℚ) (d : RedisDoc)
    (hdist : d.score.parse = 0) (hdid : d.id = some id1) :
    (memoryStoreExecute db0 [] text vector importance category provider
        id1 t1).2 = "created" ∧
    (memoryStoreExecute db0 [] text vector importance category provider
        id1 t1).1 =
      db0 ++ [⟨id1, text, vector, importance, category, t1, some "user",
        some provider⟩] ∧
    RedisMemoryDB.search [d] 1 (19 / 20) =
      [⟨RedisMemoryDB.docEntry d, 1⟩] ∧
    (RedisMemoryDB.search [d] 1 (19 / 20)).head?.map
        (fun r => r.entry.id) = some id1 ∧
    memoryStoreExecute
        (memoryStoreExecute db0 [] text vector importance category provider
          id1 t1).1
        (RedisMemoryDB.search [d] 1 (19 / 20)) text vector importance
        category provider id2 t2 =
      ((memoryStoreExecute db0 [] text vector importance category provider
          id1 t1).1,
       "duplicate") := by
  have hsearch : RedisMemoryDB.search [d] 1 (19 / 20) =
      [⟨RedisMemoryDB.docEntry d, 1⟩] := by
    simp only [RedisMemoryDB.search, List.filterMap_cons, List.filterMap_nil,
      RedisMemoryDB.docScore, RedisMemoryDB.distanceToScore, hdist]
    norm_num
  refine ⟨rfl, by simp [memoryStoreExecute], hsearch, ?_, ?_⟩
  · rw [hsearch]
    simp [RedisMemoryDB.docEntry, hdid]
  · rw [hsearch]
    simp [memoryStoreExecute]


/-- Witness for **C6** at a concrete store sequence. -/
theorem memoryStore_twice_spec_witness :
    (memoryStoreExecute [] [] "I like tea" [1, 0] (7 / 10) "other" "local/m"
        "id-1" 0).2 = "created" ∧
    (memoryStoreExecute [] [] "I like tea" [1, 0] (7 / 10) "other" "local/m"
        "id-1" 0).1 =
      [] ++ [⟨"id-1", "I like tea", [1, 0], 7 / 10, "other", 0, some "user",
        some "local/m"⟩] ∧
    RedisMemoryDB.search [dupDocW] 1 (19 / 20) =
      [⟨RedisMemoryDB.docEntry dupDocW, 1⟩] ∧
    (RedisMemoryDB.search [dupDocW] 1 (19 / 20)).head?.map
        (fun r => r.entry.id) = some "id-1" ∧
    memoryStoreExecute
        (memoryStoreExecute [] [] "I like tea" [1, 0] (7 / 10) "other"
          "local/m" "id-1" 0).1
        (RedisMemoryDB.search [dupDocW] 1 (19 / 20)) "I like tea" [1, 0]
        (7 / 10) "other" "local/m" "id-2" 1 =
      ((memoryStoreExecute [] [] "I like tea" [1, 0] (7 / 10) "other"
          "local/m" "id-1" 0).1,
       "duplicate") :=
  memoryStore_twice_spec [] "I like tea" [1, 0] (7 / 10) "other" "local/m"
    "id-1" "id-2" 0 1 dupDocW rfl rfl

/-- `shouldCapture` rejects any text outside the `[10,500]`-character
window. -/
lemma shouldCapture_length_false (t : String)
    (h : t.length < 10 ∨ 500 < t.length) : shouldCapture t = false := by
  unfold shouldCapture
  rcases h with h | h <;> simp [h]

/-- `shouldCapture` rejects any text containing the recall-injection
delimiter, regardless of the other rules. -/
lemma shouldCapture_marker_false (t : String)
    (h : containsStr t "<relevant-memories>" = true) :
    shouldCapture t = false := by
  simp [shouldCapture, h]

/-- **C7** — `shouldCapture` rejects every text whose length lies
outside `[10,500]` and every text containing `"<relevant-memories>"`
(whatever triggers it contains); `shouldCapture "hi"` is `false` and
`shouldCapture "I prefer dark mode themes for all my apps"` is
`true`. -/
theorem shouldCapture_spec :
    (∀ t : String, t.length < 10 ∨ 500 < t.length →
      shouldCapture t = false) ∧
    (∀ t : String, containsStr t "<relevant-memories>" = true →
      shouldCapture t = false) ∧
    shouldCapture "hi" = false ∧
    shouldCapture "I prefer dark mode themes for all my apps" = true :=
  ⟨shouldCapture_length_false, shouldCapture_marker_false, rfl, rfl⟩

/-- Witness for **C7**: a too-short text, and a trigger-word text
containing the injection delimiter, are both rejected. -/
theorem shouldCapture_spec_witness :
    shouldCapture "ab" = false ∧
    shouldCapture "Always remember: <relevant-memories> was injected" =
      false :=
  ⟨shouldCapture_spec.1 "ab" (Or.inl (by decide)),
   shouldCapture_spec.2.1 "Always remember: <relevant-memories> was injected"
     (by decide)⟩

/-- **C8** — The `before_agent_start` hook always returns a context that
starts with the standing tool-usage guidance text; when recall is
disabled, the prompt is absent or shorter than 5 characters, or the
embed-or-search call fails, it returns the guidance text alone — the
failure is absorbed, never propagated (the hook is a total function into
`String`). -/
theorem beforeAgentStart_spec (autoRecall : Bool) (prompt : Option String)
    (recallRes : Except String (List MemorySearchResult)) :
    (∃ s : String,
      beforeAgentStart autoRecall prompt recallRes =
        MEMORY_SYSTEM_PROMPT ++ s) ∧
    (autoRecall = false ∨ prompt = none ∨
        (∃ p, prompt = some p ∧ p.length < 5) ∨
        (∃ e, recallRes = Except.error e) →
      beforeAgentStart autoRecall prompt recallRes = MEMORY_SYSTEM_PROMPT) := by
  constructor
  · cases prompt with
    | none => exact ⟨"", by simp [beforeAgentStart]⟩
    | some p =>
        by_cases hp : p.length < 5
        · exact ⟨"", by simp [beforeAgentStart, hp]⟩
        · cases autoRecall with
          | false => exact ⟨"", by simp [beforeAgentStart, hp]⟩
          | true =>
              cases recallRes with
              | error e => exact ⟨"", by simp [beforeAgentStart, hp]⟩
              | ok results =>
                  by_cases hres : results.length == 0
                  · exact ⟨"", by simp [beforeAgentStart, hp, hres]⟩
                  · exact
                      ⟨"\n\n<relevant-memories>\nThe following memories may be relevant to this conversation:\n"
                          ++ memoryContext results ++ "\n</relevant-memories>",
                        by simp [beforeAgentStart, hp, hres]⟩
  · intro h
    cases prompt with
    | none => simp [beforeAgentStart]
    | some p =>
        by_cases hp : p.length < 5
        · simp [beforeAgentStart, hp]
        · cases autoRecall with
          | false => simp [beforeAgentStart, hp]
          | true =>
              cases recallRes with
              | error e => simp [beforeAgentStart, hp]
              | ok results =>
                  exfalso
                  rcases h with h | h | ⟨p', hp', hlen⟩ | ⟨e, he⟩
                  · exact Bool.noConfusion h
                  · exact Option.some_ne_none p h
                  · rw [Option.some_inj] at hp'
                    exact hp (hp' ▸ hlen)
                  · exact Except.noConfusion he

/-- Witness for **C8**: with recall disabled the hook returns exactly
the guidance text. -/
theorem beforeAgentStart_spec_witness :
    beforeAgentStart false (some "hello world") (Except.ok []) =
      MEMORY_SYSTEM_PROMPT :=
  (beforeAgentStart_spec false (some "hello world") (Except.ok [])).2
    (Or.inl rfl)

/-- **C1** — Under the KNN engine contract (at most `limit` reply
documents, ordered by ascending distance), every result of
`search(vector, limit, minScore)` scores at least `minScore`, the list
has at most `limit` entries, it is ordered best similarity first
(non-increasing score), and every returned entry has its `vector`
cleared to the empty list. -/
theorem search_spec (docs : List RedisDoc) (limit : ℕ) (minScore : ℚ)
    (hlen : docs.length ≤ limit)
    (hsorted : docs.Pairwise fun d1 d2 => d1.score.parse ≤ d2.score.parse) :
    (∀ r ∈ RedisMemoryDB.search docs limit minScore, minScore ≤ r.score) ∧
    (RedisMemoryDB.search docs limit minScore).length ≤ limit ∧
    (RedisMemoryDB.search docs limit minScore).Pairwise
      (fun a b => b.score ≤ a.score) ∧
    (∀ r ∈ RedisMemoryDB.search docs limit minScore,
      r.entry.vector = []) := by
  have hmem : ∀ r ∈ RedisMemoryDB.search docs limit minScore,
      ∃ d ∈ docs, minScore ≤ RedisMemoryDB.docScore d ∧
        r = ⟨RedisMemoryDB.docEntry d, RedisMemoryDB.docScore d⟩ := by
    intro r hr
    obtain ⟨d, hd, hfd⟩ := List.mem_filterMap.mp hr
    by_cases hc : minScore ≤ RedisMemoryDB.docScore d
    · rw [if_pos hc, Option.some_inj] at hfd
      exact ⟨d, hd, hc, hfd.symm⟩
    · rw [if_neg hc] at hfd
      exact Option.noConfusion hfd
  refine ⟨?_, ?_, ?_, ?_⟩
  · intro r hr
    obtain ⟨d, _, hc, rfl⟩ := hmem r hr
    exact hc
  · exact le_trans (List.length_filterMap_le _ _) hlen
  · unfold RedisMemoryDB.search
    rw [List.pairwise_filterMap]
    refine hsorted.imp ?_
    intro d1 d2 h12 b hb b2 hb2
    by_cases h1 : minScore ≤ RedisMemoryDB.docScore d1
    · rw [if_pos h1, Option.mem_def, Option.some_inj] at hb
      by_cases h2 : minScore ≤ RedisMemoryDB.docScore d2
      · rw [if_pos h2, Option.mem_def, Option.some_inj] at hb2
        subst hb
        subst hb2
        simp only [RedisMemoryDB.docScore, RedisMemoryDB.distanceToScore]
        linarith
      · rw [if_neg h2] at hb2
        exact Option.noConfusion hb2
    · rw [if_neg h1] at hb
      exact Option.noConfusion hb
  · intro r hr
    obtain ⟨d, _, _, rfl⟩ := hmem r hr
    rfl



/-- Witness for **C1** on a two-document ascending reply with
`limit = 2`, `minScore = 0.6`. -/
theorem search_spec_witness :
    (∀ r ∈ RedisMemoryDB.search [knnDocW0, knnDocW1] 2 (6 / 10),
      6 / 10 ≤ r.score) ∧
    (RedisMemoryDB.search [knnDocW0, knnDocW1] 2 (6 / 10)).length ≤ 2 ∧
    (RedisMemoryDB.search [knnDocW0, knnDocW1] 2 (6 / 10)).Pairwise
      (fun a b => b.score ≤ a.score) ∧
    (∀ r ∈ RedisMemoryDB.search [knnDocW0, knnDocW1] 2 (6 / 10),
      r.entry.vector = []) :=
  search_spec [knnDocW0, knnDocW1] 2 (6 / 10) (by decide)
    (by simp [List.pairwise_cons, knnDocW0, knnDocW1, NumField.parse])

/-- `Map.has` distributes over association-list append. -/
lemma mapHas_append (a b : SeenMap) (k : String) :
    mapHas (a ++ b) k = (mapHas a k || mapHas b k) := by
  simp [mapHas]

/-- `Map.set` on an absent key appends. -/
lemma mapSet_absent (m : SeenMap) (k : String) (v : MemorySearchResult)
    (h : mapHas m k = false) : mapSet m k v = m ++ [(k, v)] := by
  simp [mapSet, h]

/-- The vector loop of the merge: with pairwise-distinct ids that are
all absent from the accumulator, it appends the id-keyed results in
order. -/
lemma foldl_mapSet_eq (vres : List MemorySearchResult) :
    ∀ m0 : SeenMap, (∀ r ∈ vres, mapHas m0 r.entry.id = false) →
      (vres.map fun r => r.entry.id).Nodup →
      vres.foldl (fun m r => mapSet m r.entry.id r) m0 =
        m0 ++ vres.map fun r => (r.entry.id, r) := by
  induction vres with
  | nil => intro m0 _ _; simp
  | cons r rest ih =>
      intro m0 hdisj hnd
      rw [List.map_cons, List.nodup_cons] at hnd
      obtain ⟨hnotin, hndrest⟩ := hnd
      simp only [List.foldl_cons]
      rw [mapSet_absent m0 _ _ (hdisj r (List.mem_cons_self _ _))]
      rw [ih (m0 ++ [(r.entry.id, r)]) ?_ hndrest]
      · simp
      · intro s hs
        rw [mapHas_append, hdisj s (List.mem_cons_of_mem _ hs)]
        simp only [Bool.false_or, mapHas, List.any_cons, List.any_nil,
          Bool.or_false]
        exact beq_eq_false_iff_ne.mpr
          fun he => hnotin (he ▸ List.mem_map_of_mem _ hs)

/-- The text loop of the merge: with pairwise-distinct text ids, it
appends exactly the penalised text results whose id is absent from the
accumulator. -/
lemma foldl_textMerge_eq (tres : List MemorySearchResult) :
    ∀ m0 : SeenMap, (tres.map fun r => r.entry.id).Nodup →
      tres.foldl
          (fun m r =>
            if mapHas m r.entry.id then m
            else mapSet m r.entry.id (penalize r)) m0 =
        m0 ++ (tres.filter fun s => !mapHas m0 s.entry.id).map
          fun s => (s.entry.id, penalize s) := by
  induction tres with
  | nil => intro m0 _; simp
  | cons s rest ih =>
      intro m0 hnd
      rw [List.map_cons, List.nodup_cons] at hnd
      obtain ⟨hnotin, hndrest⟩ := hnd
      simp only [List.foldl_cons]
      by_cases hh : mapHas m0 s.entry.id = true
      · rw [if_pos hh, ih m0 hndrest, List.filter_cons]
        simp [hh]
      · have hh' : mapHas m0 s.entry.id = false := by
          simpa using hh
        rw [if_neg hh, mapSet_absent _ _ _ hh', ih _ hndrest]
        have hcongr :
            rest.filter
                (fun x => !mapHas (m0 ++ [(s.entry.id, penalize s)])
                  x.entry.id) =
              rest.filter (fun x => !mapHas m0 x.entry.id) := by
          apply List.filter_congr
          intro x hx
          rw [mapHas_append]
          have : mapHas [(s.entry.id, penalize s)] x.entry.id = false := by
            simp only [mapHas, List.any_cons, List.any_nil, Bool.or_false]
            exact beq_eq_false_iff_ne.mpr
              fun he => hnotin (he ▸ List.mem_map_of_mem _ hx)
          rw [this, Bool.or_false]
        rw [hcongr, List.filter_cons]
        simp [hh']


/-- `Map.has` on the id-keyed image of a result list. -/
lemma mapHas_keyed (vres : List MemorySearchResult) (k : String) :
    mapHas (vres.map fun r => (r.entry.id, r)) k =
      vres.any fun r => r.entry.id == k := by
  induction vres with
  | nil => rfl
  | cons a rest ih =>
      simp only [mapHas, List.map_cons, List.any_cons] at ih ⊢
      rw [ih]

/-- Characterisation of the merged `seen` map under per-list id
uniqueness. -/
lemma hybridSeen_eq (vres tres : List MemorySearchResult)
    (hv : (vres.map fun r => r.entry.id).Nodup)
    (ht : (tres.map fun r => r.entry.id).Nodup) :
    hybridSeen vres tres =
      (vres.map fun r => (r.entry.id, r)) ++
        (textOnly vres tres).map fun s => (s.entry.id, penalize s) := by
  unfold hybridSeen
  rw [foldl_mapSet_eq vres [] (fun r _ => rfl) hv]
  simp only [List.nil_append]
  rw [foldl_textMerge_eq tres _ ht]
  congr 1
  have hpred :
      (fun s : MemorySearchResult =>
          !mapHas (vres.map fun r => (r.entry.id, r)) s.entry.id) =
        fun s => !(vres.any fun r => r.entry.id == s.entry.id) := by
    funext s
    rw [mapHas_keyed]
  rw [textOnly, hpred]

/-- The sorted merged list is the merge-sort of the vector results
followed by the penalised text-only results. -/
lemma hybridMergeCore_eq (vres tres : List MemorySearchResult)
    (hv : (vres.map fun r => r.entry.id).Nodup)
    (ht : (tres.map fun r => r.entry.id).Nodup) :
    hybridMergeCore vres tres =
      (vres ++ (textOnly vres tres).map penalize).mergeSort scoreLe := by
  unfold hybridMergeCore
  rw [hybridSeen_eq vres tres hv ht]
  congr 1
  rw [List.map_append, List.map_map, List.map_map]
  have h1 :
      List.map (Prod.snd ∘ fun r : MemorySearchResult => (r.entry.id, r))
        vres = vres := by
    rw [show (Prod.snd ∘ fun r : MemorySearchResult => (r.entry.id, r)) = id
      from rfl, List.map_id]
  have h2 :
      List.map
          (Prod.snd ∘ fun s : MemorySearchResult => (s.entry.id, penalize s))
          (textOnly vres tres) =
        List.map penalize (textOnly vres tres) := rfl
  rw [h1, h2]

/-- In a list with pairwise-distinct entry ids, filtering by the id of a
member returns exactly that member. -/
lemma filter_key_eq_singleton :
    ∀ l : List MemorySearchResult, (l.map fun x => x.entry.id).Nodup →
      ∀ r ∈ l, l.filter (fun x => x.entry.id == r.entry.id) = [r] := by
  intro l
  induction l with
  | nil => intro _ r hr; cases hr
  | cons a rest ih =>
      intro hnd r hr
      rw [List.map_cons, List.nodup_cons] at hnd
      obtain ⟨hnotin, hndrest⟩ := hnd
      rcases List.mem_cons.mp hr with rfl | hr'
      · rw [List.filter_cons, if_pos (by simp)]
        have hrest : rest.filter (fun x => x.entry.id == r.entry.id) = [] := by
          rw [List.filter_eq_nil_iff]
          intro x hx
          simp only [Bool.not_eq_true]
          exact beq_eq_false_iff_ne.mpr
            fun he => hnotin (he ▸ List.mem_map_of_mem _ hx)
        rw [hrest]
      · have ha : (a.entry.id == r.entry.id) = false :=
          beq_eq_false_iff_ne.mpr
            fun he => hnotin (he ▸ List.mem_map_of_mem _ hr')
        rw [List.filter_cons, if_neg (by simp [ha])]
        exact ih hndrest r hr'

/-- `mergeSort` with the `b.score - a.score` comparator sorts by
non-increasing score. -/
lemma pairwise_scoreLe_mergeSort (l : List MemorySearchResult) :
    (l.mergeSort scoreLe).Pairwise fun a b => b.score ≤ a.score := by
  have h : (l.mergeSort scoreLe).Pairwise fun a b => scoreLe a b = true := by
    apply List.sorted_mergeSort
    · intro a b c hab hbc
      simp only [scoreLe, decide_eq_true_eq] at *
      linarith
    · intro a b
      simp only [scoreLe, Bool.or_eq_true, decide_eq_true_eq]
      exact le_total b.score a.score
  exact h.imp fun hab => by simpa [scoreLe] using hab

/-- Evaluation of the stable sort on a two-element list. -/
lemma mergeSort_pair (a b : MemorySearchResult) :
    [a, b].mergeSort scoreLe = if scoreLe a b then [a, b] else [b, a] := by
  rw [List.mergeSort]
  norm_num [List.splitInTwo_fst, List.splitInTwo_snd,
    List.mergeSort_singleton, List.cons_merge_cons, List.nil_merge,
    List.merge_right]

/-- **C3** — The hybrid merge (shared by `memory_recall` and the CLI
hybrid branches), on any vector/text sub-result lists with per-list
unique ids: an id present in both sub-lists appears exactly once in the
merged sorted list, carried by the vector result with its vector-derived
score; an id present only in the text results appears exactly once with
its text score multiplied by 0.8; the merged list is sorted by
non-increasing score, and the final list is its truncation to at most
`limit` entries, still sorted. -/
theorem hybridMerge_spec (vres tres : List MemorySearchResult) (limit : ℕ)
    (hv : (vres.map fun r => r.entry.id).Nodup)
    (ht : (tres.map fun r => r.entry.id).Nodup) :
    (∀ r ∈ vres, ∀ s ∈ tres, r.entry.id = s.entry.id →
      (hybridMergeCore vres tres).filter
        (fun x => x.entry.id == r.entry.id) = [r]) ∧
    (∀ s ∈ tres, (∀ r ∈ vres, r.entry.id ≠ s.entry.id) →
      (hybridMergeCore vres tres).filter
        (fun x => x.entry.id == s.entry.id) = [penalize s]) ∧
    (∀ s : MemorySearchResult, (penalize s).score = s.score * (8 / 10)) ∧
    (hybridMergeCore vres tres).Pairwise (fun a b => b.score ≤ a.score) ∧
    hybridMerge vres tres limit = (hybridMergeCore vres tres).take limit ∧
    (hybridMerge vres tres limit).length ≤ limit ∧
    (hybridMerge vres tres limit).Pairwise
      (fun a b => b.score ≤ a.score) := by
  have hcore := hybridMergeCore_eq vres tres hv ht
  have hperm : List.Perm (hybridMergeCore vres tres)
      (vres ++ (textOnly vres tres).map penalize) := by
    rw [hcore]
    exact List.mergeSort_perm _ _
  refine ⟨?_, ?_, fun s => rfl, ?_, rfl, ?_, ?_⟩
  · intro r hr s hs hid
    have hfperm := hperm.filter (fun x => x.entry.id == r.entry.id)
    have hrhs : (vres ++ (textOnly vres tres).map penalize).filter
        (fun x => x.entry.id == r.entry.id) = [r] := by
      rw [List.filter_append, filter_key_eq_singleton vres hv r hr]
      have hnil : ((textOnly vres tres).map penalize).filter
          (fun x => x.entry.id == r.entry.id) = [] := by
        rw [List.filter_eq_nil_iff]
        intro x hx
        obtain ⟨s', hs', rfl⟩ := List.mem_map.mp hx
        obtain ⟨_, hs'2⟩ := List.mem_filter.mp hs'
        have hany : (vres.any fun r' => r'.entry.id == s'.entry.id) = false := by
          simpa using hs'2
        have hne : r.entry.id ≠ s'.entry.id := fun he =>
          (List.any_eq_false.mp hany r hr) (beq_iff_eq.mpr he)
        simp only [Bool.not_eq_true]
        exact beq_eq_false_iff_ne.mpr fun he => hne he.symm
      rw [hnil, List.append_nil]
    exact List.perm_singleton.mp (hrhs ▸ hfperm)
  · intro s hs honly
    have hfperm := hperm.filter (fun x => x.entry.id == s.entry.id)
    have hmem_textOnly : s ∈ textOnly vres tres := by
      rw [textOnly, List.mem_filter]
      refine ⟨hs, ?_⟩
      have hany : (vres.any fun r => r.entry.id == s.entry.id) = false := by
        rw [List.any_eq_false]
        intro r hr hbeq
        exact honly r hr (beq_iff_eq.mp hbeq)
      simp [hany]
    have hnodup_pen :
        (((textOnly vres tres).map penalize).map fun x => x.entry.id).Nodup := by
      rw [List.map_map]
      have hfun :
          ((fun x : MemorySearchResult => x.entry.id) ∘ penalize) =
            fun x : MemorySearchResult => x.entry.id := rfl
      rw [hfun]
      exact ht.sublist ((List.filter_sublist _).map _)
    have hpen_mem : penalize s ∈ (textOnly vres tres).map penalize :=
      List.mem_map_of_mem _ hmem_textOnly
    have hrhs : (vres ++ (textOnly vres tres).map penalize).filter
        (fun x => x.entry.id == s.entry.id) = [penalize s] := by
      rw [List.filter_append]
      have h1 : vres.filter (fun x => x.entry.id == s.entry.id) = [] := by
        rw [List.filter_eq_nil_iff]
        intro x hx
        simp only [Bool.not_eq_true]
        exact beq_eq_false_iff_ne.mpr (honly x hx)
      have h2 := filter_key_eq_singleton ((textOnly vres tres).map penalize)
        hnodup_pen (penalize s) hpen_mem
      rw [h1, List.nil_append]
      exact h2
    exact List.perm_singleton.mp (hrhs ▸ hfperm)
  · rw [hcore]
    exact pairwise_scoreLe_mergeSort _
  · exact List.length_take_le _ _
  · exact List.Pairwise.sublist (List.take_sublist _ _)
      (by rw [hybridMergeCore_eq vres tres hv ht]
          exact pairwise_scoreLe_mergeSort _)





/-- Witness for **C3** with one id in both sub-lists, one text-only id,
and `limit = 1` exercising the truncation. -/
theorem hybridMerge_spec_witness :
    (∀ r ∈ vresW, ∀ s ∈ tresW, r.entry.id = s.entry.id →
      (hybridMergeCore vresW tresW).filter
        (fun x => x.entry.id == r.entry.id) = [r]) ∧
    (∀ s ∈ tresW, (∀ r ∈ vresW, r.entry.id ≠ s.entry.id) →
      (hybridMergeCore vresW tresW).filter
        (fun x => x.entry.id == s.entry.id) = [penalize s]) ∧
    (∀ s : MemorySearchResult, (penalize s).score = s.score * (8 / 10)) ∧
    (hybridMergeCore vresW tresW).Pairwise (fun a b => b.score ≤ a.score) ∧
    hybridMerge vresW tresW 1 = (hybridMergeCore vresW tresW).take 1 ∧
    (hybridMerge vresW tresW 1).length ≤ 1 ∧
    (hybridMerge vresW tresW 1).Pairwise (fun a b => b.score ≤ a.score) :=
  hybridMerge_spec vresW tresW 1 (by decide) (by decide)





/-- **C4 counterexample** — a text-only match (penalised score `0.8`)
is ranked *above* a genuine semantic match of score `1/2`, which the
vector sub-search's `minScore = 0.1` admits: the claim fails as
stated. -/
theorem hybrid_textonly_outranks :
    hybridMerge [vHitW] [tHitW] 5 = [penalize tHitW, vHitW] ∧
    (1 : ℚ) / 10 ≤ vHitW.score ∧
    vHitW.score < (penalize tHitW).score := by
  refine ⟨?_, by norm_num [vHitW],
    by norm_num [vHitW, tHitW, penalize]⟩
  have h0 : hybridMerge [vHitW] [tHitW] 5 =
      ([vHitW, penalize tHitW].mergeSort scoreLe).take 5 := rfl
  rw [h0, mergeSort_pair, if_neg ?_]
  · rfl
  · norm_num [scoreLe, penalize, vHitW, tHitW]

/-- **C4 (amended)** — In the merged hybrid list, a text-only match
(fixed text score 1, penalised to `4/5`) is ranked below every vector
match whose score exceeds `4/5`; vector matches admitted with scores of
at most `4/5` are not covered (see the counterexample). -/
theorem hybrid_penalty_order_amended (vres tres : List MemorySearchResult)
    (hv : (vres.map fun r => r.entry.id).Nodup)
    (ht : (tres.map fun r => r.entry.id).Nodup)
    (r : MemorySearchResult) (hr : r ∈ vres) (hrs : 4 / 5 < r.score)
    (s : MemorySearchResult) (hs : s ∈ tres) (hss : s.score = 1)
    (honly : ∀ r' ∈ vres, r'.entry.id ≠ s.entry.id) :
    ∀ i j : ℕ, (hybridMergeCore vres tres)[i]? = some r →
      (hybridMergeCore vres tres)[j]? = some (penalize s) → i < j := by
  intro i j hi hj
  have hpw : (hybridMergeCore vres tres).Pairwise
      (fun a b => b.score ≤ a.score) := by
    rw [hybridMergeCore_eq vres tres hv ht]
    exact pairwise_scoreLe_mergeSort _
  have hpen : (penalize s).score = 4 / 5 := by
    simp [penalize, hss]
    norm_num
  obtain ⟨hilen, hieq⟩ := List.getElem?_eq_some.mp hi
  obtain ⟨hjlen, hjeq⟩ := List.getElem?_eq_some.mp hj
  by_contra hij
  push_neg at hij
  rcases lt_or_eq_of_le hij with hlt | heq
  · have hrel := List.pairwise_iff_getElem.mp hpw j i hjlen hilen hlt
    rw [hieq, hjeq] at hrel
    rw [hpen] at hrel
    linarith
  · subst heq
    rw [hieq] at hjeq
    rw [hjeq] at hrs
    rw [hpen] at hrs
    exact absurd hrs (lt_irrefl _)


/-- Evaluation of the merged list for the C4 witness scenario. -/
lemma hybridMergeCore_penalty_eval :
    hybridMergeCore [vHitHi] [tHitW] = [vHitHi, penalize tHitW] := by
  have h0 : hybridMergeCore [vHitHi] [tHitW] =
      [vHitHi, penalize tHitW].mergeSort scoreLe := rfl
  rw [h0, mergeSort_pair, if_pos ?_]
  norm_num [scoreLe, penalize, vHitHi, tHitW]

/-- Witness for the amended **C4**: a `0.9`-scored vector match sits at
index 0, the penalised text-only match at index 1. -/
theorem hybrid_penalty_order_amended_witness : (0 : ℕ) < 1 :=
  hybrid_penalty_order_amended [vHitHi] [tHitW] (by decide) (by decide)
    vHitHi (by simp) (by norm_num [vHitHi])
    tHitW (by simp) rfl (by decide) 0 1
    (by rw [hybridMergeCore_penalty_eval]; rfl)
    (by rw [hybridMergeCore_penalty_eval]; rfl)
